import Mathlib

/-
  Shallow embedding of the coinwatch alert system
  (crypto_alert.py and update_52w_stats.py).

  Prices, thresholds and percentages are modelled as rationals (ℚ): the
  Python code computes with floats, but every claim under scrutiny is about
  comparisons, selection and key bookkeeping, which coincide over exact
  arithmetic.  `round(x, 2)` is modelled by `round2` (round to two decimal
  places); the half-way tie direction of Python float rounding is not
  observable in any claim.

  The dedup mapping `sent_alerts` (a JSON object mapping alert-key strings
  to `True`) is modelled as a `Finset AlertKey`: the code only ever tests
  membership (`key not in sent_alerts`) and inserts `True`, so the mapping
  is exactly its key set.
-/

namespace Coinwatch

/-- A dedup key, `f"{crypto_id}_ath_{t}"` or `f"{crypto_id}_price_{p}"`.
Modelled structurally: the asset identifier together with the alert class
and the threshold or target value. -/
inductive AlertKey where
  | athKey (id : String) (t : ℚ)
  | priceKey (id : String) (p : ℚ)
deriving DecidableEq, Repr

/-- One entry of `coins_config.json`: id, name, symbol, ATH drawdown
thresholds and absolute price targets. -/
structure CoinConfig where
  id : String
  name : String
  symbol : String
  ath_thresholds : List ℚ
  price_alerts : List ℚ
deriving DecidableEq, Repr

/-- One entry of the market snapshot returned by `get_current_prices`. -/
structure Crypto where
  id : String
  current_price : ℚ
  price_change_percentage_24h : Option ℚ
  price_change_percentage_7d_in_currency : Option ℚ
  market_cap_rank : Option ℕ
  total_volume : Option ℚ
  market_cap : Option ℚ
deriving DecidableEq, Repr

/-- One per-coin entry of `52w_stats.json` as read by the alert script
(fields accessed with `.get`, hence optional). -/
structure CoinStatEntry where
  high_52w : Option ℚ
  low_52w : Option ℚ
deriving DecidableEq, Repr

/-- The `52w_stats.json` document as read by the alert script. -/
structure Stats52w where
  coins : List (String × CoinStatEntry)
deriving DecidableEq, Repr

/-- The persisted dedup document: a date stamp plus the sent-alert key set. -/
structure DedupState where
  date : String
  sent_alerts : Finset AlertKey
deriving DecidableEq

/-- `round(x, 2)`: round to two decimal places. -/
def round2 (x : ℚ) : ℚ := (round (x * 100) : ℤ) / 100

/-- The auxiliary market-context fields attached to every alert
(`market_data` dict in `check_alerts`). -/
structure MarketData where
  priceChange24h : Option ℚ
  priceChange7d : Option ℚ
  marketCapRank : Option ℕ
  totalVolume : Option ℚ
  marketCap : Option ℚ
  high52w : Option ℚ
  low52w : Option ℚ
  pctFrom52wHigh : Option ℚ
  pctFrom52wLow : Option ℚ
deriving DecidableEq, Repr

/-- The class-specific payload of an alert. -/
inductive AlertBody where
  | ath (athPrice dropPercent threshold : ℚ)
  | price (targetPrice priceDiff priceDiffPercent : ℚ)
deriving DecidableEq, Repr

/-- A computed alert (the dict appended to `alerts`, after `score`
has been deleted). -/
structure Alert where
  crypto : String
  currentPrice : ℚ
  body : AlertBody
  market : MarketData
deriving DecidableEq, Repr

/-- Lookup of one coin entry in the coins mapping of the 52-week stats
document. -/
def lookupStats (s : Stats52w) (id : String) : Option CoinStatEntry :=
  (s.coins.find? (fun p => p.1 == id)).map (·.2)

/-- The dict comprehension building `coin_lookup` keyed by coin id,
followed by its lookup: with duplicate ids the dict keeps the last entry,
hence the search over the reversed list. -/
def coin_lookup (coins : List CoinConfig) (id : String) : Option CoinConfig :=
  coins.reverse.find? (fun c => c.id == id)

/-- The `market_data` dict built once per coin in `check_alerts`. -/
def buildMarketData (c : Crypto) (s : Option CoinStatEntry) : MarketData :=
  let high := match s with | some st => st.high_52w | none => none
  let low := match s with | some st => st.low_52w | none => none
  let pctHigh := match high with
    | some h => if 0 < h then some ((c.current_price - h) / h * 100) else none
    | none => none
  let pctLow := match low with
    | some l => if 0 < l then some ((c.current_price - l) / l * 100) else none
    | none => none
  { priceChange24h := c.price_change_percentage_24h.map round2
    priceChange7d := c.price_change_percentage_7d_in_currency.map round2
    marketCapRank := c.market_cap_rank
    totalVolume := c.total_volume
    marketCap := c.market_cap
    high52w := high
    low52w := low
    pctFrom52wHigh := pctHigh.map round2
    pctFrom52wLow := pctLow.map round2 }

/-- Python `max` over a list, `none` on the empty list. -/
def listMax : List ℚ → Option ℚ
  | [] => none
  | x :: xs =>
    match listMax xs with
    | none => some x
    | some m => some (max x m)

/-- Python `min` over a list, `none` on the empty list. -/
def listMin : List ℚ → Option ℚ
  | [] => none
  | x :: xs =>
    match listMin xs with
    | none => some x
    | some m => some (min x m)

/-- `drop_percent = ((ath_price - current_price) / ath_price) * 100`. -/
def dropPercent (ath current : ℚ) : ℚ := (ath - current) / ath * 100

/-- `triggered_thresholds`: the configured thresholds `t` with
`drop_percent >= t` whose key is not already in the prior sent mapping. -/
def triggeredThresholds (cfg : CoinConfig) (sent : Finset AlertKey) (drop : ℚ) : List ℚ :=
  cfg.ath_thresholds.filter fun t =>
    decide (drop ≥ t ∧ AlertKey.athKey cfg.id t ∉ sent)

/-- `triggered_targets`: the configured targets `p` with
`current_price <= p` whose key is not already in the prior sent mapping. -/
def triggeredTargets (cfg : CoinConfig) (sent : Finset AlertKey) (current : ℚ) : List ℚ :=
  cfg.price_alerts.filter fun p =>
    decide (current ≤ p ∧ AlertKey.priceKey cfg.id p ∉ sent)

/-- `price_diff_percent = (price_diff / best_target) * 100 if best_target > 0 else 0`. -/
def priceDiffPercent (price_diff best_target : ℚ) : ℚ :=
  if 0 < best_target then price_diff / best_target * 100 else 0

/-- The ATH-drawdown candidate for one coin, given a successful ATH lookup:
the alert dict paired with its `score` (the effective price
`ath_price * (1 - best_threshold / 100)`). -/
def athCandidate (cfg : CoinConfig) (sent : Finset AlertKey) (cur ath : ℚ)
    (md : MarketData) : Option (Alert × ℚ) :=
  let drop := dropPercent ath cur
  match listMax (triggeredThresholds cfg sent drop) with
  | none => none
  | some best =>
    some ({ crypto := cfg.name ++ " (" ++ cfg.symbol ++ ")"
            currentPrice := cur
            body := AlertBody.ath ath (round2 drop) best
            market := md },
          ath * (1 - best / 100))

/-- The price-target candidate for one coin: the alert dict paired with its
`score` (the target itself). -/
def priceCandidate (cfg : CoinConfig) (sent : Finset AlertKey) (cur : ℚ)
    (md : MarketData) : Option (Alert × ℚ) :=
  match listMin (triggeredTargets cfg sent cur) with
  | none => none
  | some best =>
    let diff := cur - best
    some ({ crypto := cfg.name ++ " (" ++ cfg.symbol ++ ")"
            currentPrice := cur
            body := AlertBody.price best diff (round2 (priceDiffPercent diff best))
            market := md },
          best)

/-- `potential_alerts.sort(key=score)` followed by taking the head, for the
at-most-two-element list `[athCand?, priceCand?]` built in that order:
the Python sort is stable, so on a tie the earlier (ATH) entry wins. -/
def pickBest : Option (Alert × ℚ) → Option (Alert × ℚ) → Option Alert
  | none, none => none
  | some a, none => some a.1
  | none, some b => some b.1
  | some a, some b => if a.2 ≤ b.2 then some a.1 else some b.1

/-- The per-coin outcome of the `check_alerts` loop body: at most one
emitted alert, plus the `triggered_ath_keys` and `triggered_price_keys`
marked sent for that coin. -/
structure CoinResult where
  alert : Option Alert
  athKeys : List AlertKey
  priceKeys : List AlertKey
deriving DecidableEq, Repr

/-- The ATH branch of the per-coin loop, guarded by the truthiness of the
configured threshold list: only when thresholds are configured and the ATH
lookup succeeds does it produce the candidate and the triggered ATH keys. -/
def athPart (sent : Finset AlertKey) (cfg : CoinConfig) (cur : ℚ) (md : MarketData)
    (lookup : String → Option ℚ) : Option (Alert × ℚ) × List AlertKey :=
  if cfg.ath_thresholds.isEmpty then (none, [])
  else
    match lookup cfg.id with
    | none => (none, [])
    | some ath =>
      (athCandidate cfg sent cur ath md,
       (triggeredThresholds cfg sent (dropPercent ath cur)).map (AlertKey.athKey cfg.id))

/-- The price-target branch of the per-coin loop, guarded by the
truthiness of the configured target list. -/
def pricePart (sent : Finset AlertKey) (cfg : CoinConfig) (cur : ℚ) (md : MarketData) :
    Option (Alert × ℚ) × List AlertKey :=
  if cfg.price_alerts.isEmpty then (none, [])
  else
    (priceCandidate cfg sent cur md,
     (triggeredTargets cfg sent cur).map (AlertKey.priceKey cfg.id))

/-- The body of the per-coin loop of `check_alerts`: evaluates the ATH
drawdown candidate and the price-target candidate, selects the best by
score, and reports the keys to mark sent (marking happens only when some
candidate exists, mirroring `if potential_alerts:`). -/
def processCoin (sent : Finset AlertKey) (cfg : CoinConfig) (snap : Crypto)
    (stats : Option CoinStatEntry) (lookup : String → Option ℚ) : CoinResult :=
  let md := buildMarketData snap stats
  let ap := athPart sent cfg snap.current_price md lookup
  let pp := pricePart sent cfg snap.current_price md
  match pickBest ap.1 pp.1 with
  | none => ⟨none, [], []⟩
  | some best => ⟨some best, ap.2, pp.2⟩

/-- The dedup condition key represented by an emitted alert of coin `cfg`:
for a drawdown alert the key of its reported threshold, for a target alert
the key of its reported target. -/
def alertCondKey (cfg : CoinConfig) (a : Alert) : AlertKey :=
  match a.body with
  | AlertBody.ath _ _ t => AlertKey.athKey cfg.id t
  | AlertBody.price p _ _ => AlertKey.priceKey cfg.id p

/-- The result of one `check_alerts` run: the emitted alerts, and the dedup
document written to the tracking file (`none` when the write is skipped,
i.e. in dry-run mode or when the mapping is unchanged). -/
structure CheckResult where
  alerts : List Alert
  write : Option DedupState
deriving DecidableEq

/-- The keys marked sent by one iteration of the `check_alerts` loop for
one snapshot entry (empty when the entry has no configured coin). -/
def coinKeysOf (coins : List CoinConfig) (stats : Stats52w) (sent : Finset AlertKey)
    (lookup : String → Option ℚ) (crypto : Crypto) : Finset AlertKey :=
  match coin_lookup coins crypto.id with
  | none => ∅
  | some cfg =>
    let r := processCoin sent cfg crypto (lookupStats stats crypto.id) lookup
    (r.athKeys ++ r.priceKeys).toFinset

/-- One iteration of the `check_alerts` loop: appends the emitted coin
alert (if any) and merges its newly marked keys into the accumulator. -/
def checkStep (coins : List CoinConfig) (stats : Stats52w) (sent : Finset AlertKey)
    (lookup : String → Option ℚ) (acc : List Alert × Finset AlertKey) (crypto : Crypto) :
    List Alert × Finset AlertKey :=
  match coin_lookup coins crypto.id with
  | none => acc
  | some cfg =>
    let r := processCoin sent cfg crypto (lookupStats stats crypto.id) lookup
    (acc.1 ++ r.alert.toList, acc.2 ∪ (r.athKeys ++ r.priceKeys).toFinset)

/-- All keys newly marked sent during one cycle. -/
def cycleMarkedKeys (coins : List CoinConfig) (stats : Stats52w) (sent : Finset AlertKey)
    (current_data : List Crypto) (lookup : String → Option ℚ) : Finset AlertKey :=
  current_data.foldl (fun acc c => acc ∪ coinKeysOf coins stats sent lookup c) ∅

/-- `check_alerts`: iterate the per-coin evaluation over the market
snapshot against the prior dedup state, collecting emitted alerts and
accumulating newly marked keys; persist the merged mapping unless running
dry or nothing changed. -/
def check_alerts (coins : List CoinConfig) (stats : Stats52w) (sent : DedupState)
    (current_data : List Crypto) (lookup : String → Option ℚ) (dry_run : Bool) :
    CheckResult :=
  let res := current_data.foldl (checkStep coins stats sent.sent_alerts lookup)
    ([], sent.sent_alerts)
  { alerts := res.1
    write :=
      if dry_run = false ∧ res.2 ≠ sent.sent_alerts then
        some ⟨sent.date, res.2⟩
      else none }

/-- `load_sent_alerts`: `stored = none` models a missing tracking file or
one whose contents fail to parse as JSON; otherwise the stored document is
returned, reset to a fresh empty mapping stamped with today when its date
stamp differs from today and daily reset is enabled. -/
def load_sent_alerts (reset_alerts_daily : Bool) (today : String)
    (stored : Option DedupState) : DedupState :=
  match stored with
  | none => ⟨today, ∅⟩
  | some data =>
    if data.date ≠ today ∧ reset_alerts_daily = true then ⟨today, ∅⟩ else data

/-- Whether an alert is an ATH-drawdown alert (its type field is ath). -/
def Alert.isAth (a : Alert) : Bool :=
  match a.body with
  | AlertBody.ath _ _ _ => true
  | AlertBody.price _ _ _ => false

/-- The semantic content of the single Discord embed built by
`send_discord_alert`: total count, colour code, and the two class-grouped
sections (string rendering of the description is abstracted). -/
structure DiscordPayload where
  totalAlerts : ℕ
  color : ℕ
  athSection : List Alert
  priceSection : List Alert
deriving DecidableEq, Repr

/-- `send_discord_alert`: returns the payload delivered to the webhook, or
`none` when nothing is sent (empty alert list, or dry-run mode). -/
def send_discord_alert (alerts : List Alert) (dry_run : Bool) : Option DiscordPayload :=
  if alerts.isEmpty then none
  else if dry_run then none
  else
    let athA := alerts.filter Alert.isAth
    let priceA := alerts.filter (fun a => !(Alert.isAth a))
    some { totalAlerts := alerts.length
           color := if !priceA.isEmpty && athA.isEmpty then 16753920 else 16711680
           athSection := athA
           priceSection := priceA }

/-- The observable outcome of one HTTP request attempt inside
`get_ath_price` (success carries the extracted
`market_data.ath.usd` value). -/
inductive ReqOutcome where
  | success (ath : ℚ)
  | timeout
  | httpErr (code : ℕ)
  | connErr
  | reqErr
deriving DecidableEq, Repr

/-- The retry loop of `get_ath_price`, indexed by the current attempt
number and the number of loop iterations remaining
(`rem + attempt = max_retries` on every call).  Returns the fetched value
(or `none`) together with the list of back-off sleeps performed, in order.
A timeout retries only when `attempt < max_retries - 1` (i.e. `rem ≠ 0`
after this iteration); a 429 always sleeps and continues, so a 429 on the
final attempt still sleeps before the loop exhausts and returns `none`;
every other failure returns immediately. -/
def ath_fetch_go (resp : ℕ → ReqOutcome) : ℕ → ℕ → Option ℚ × List ℕ
  | _, 0 => (none, [])
  | attempt, rem + 1 =>
    match resp attempt with
    | ReqOutcome.success a => (some a, [])
    | ReqOutcome.timeout =>
      if rem = 0 then (none, [])
      else
        let r := ath_fetch_go resp (attempt + 1) rem
        (r.1, (attempt + 1) * 5 :: r.2)
    | ReqOutcome.httpErr c =>
      if c = 429 then
        let r := ath_fetch_go resp (attempt + 1) rem
        (r.1, (attempt + 1) * 5 :: r.2)
      else (none, [])
    | ReqOutcome.connErr => (none, [])
    | ReqOutcome.reqErr => (none, [])

/-- `get_ath_price(crypto_id, max_retries)`, with the network abstracted as
a map from attempt number to request outcome. -/
def get_ath_price (resp : ℕ → ReqOutcome) (max_retries : ℕ) : Option ℚ × List ℕ :=
  ath_fetch_go resp 0 max_retries

/-- One per-coin entry written by the 52-week refresher
(`high_52w`, `low_52w`, `updated_at`). -/
structure StatOut where
  high_52w : ℚ
  low_52w : ℚ
  updated_at : String
deriving DecidableEq, Repr

/-- The `52w_stats.json` document written by the refresher. -/
structure StatsData where
  last_updated : String
  coins : List (String × StatOut)
deriving DecidableEq, Repr

/-- The observable outcome of `update_all_52w_stats`: the document saved
(`none` when nothing was fetched and the save is skipped) and the ids
retried in the follow-up pass. -/
structure UpdateResult where
  saved : Option StatsData
  retried : List String
deriving DecidableEq, Repr

/-- `update_all_52w_stats`, with `fetch_52w_high_low` abstracted as two
oracles: `fetch1` for the first pass (called with `max_retries=3`) and
`fetch2` for the follow-up retry pass (called with `max_retries=2`), each
returning the `(high, low)` reduction of the fetched year series or `none`
on failure.  The first pass records every success and collects the failed
ids; after a cooldown a single retry pass runs over exactly the failed
ids; the document is saved iff at least one coin entry was recorded. -/
def statEntry (today : String) (hl : ℚ × ℚ) : StatOut := ⟨hl.1, hl.2, today⟩

/-- One iteration of the first fetch pass: record the entry on success,
collect the id on failure. -/
def pass1Step (fetch1 : String → Option (ℚ × ℚ)) (today : String)
    (acc : List (String × StatOut) × List String) (id : String) :
    List (String × StatOut) × List String :=
  match fetch1 id with
  | some hl => (acc.1 ++ [(id, statEntry today hl)], acc.2)
  | none => (acc.1, acc.2 ++ [id])

/-- One iteration of the follow-up retry pass over the failed ids. -/
def retryStep (fetch2 : String → Option (ℚ × ℚ)) (today : String)
    (acc : List (String × StatOut)) (id : String) : List (String × StatOut) :=
  match fetch2 id with
  | some hl => acc ++ [(id, statEntry today hl)]
  | none => acc

def update_all_52w_stats (coin_ids : List String)
    (fetch1 fetch2 : String → Option (ℚ × ℚ)) (today : String) : UpdateResult :=
  let pass1 := coin_ids.foldl (pass1Step fetch1 today) ([], [])
  let coins2 := pass1.2.foldl (retryStep fetch2 today) pass1.1
  { saved := if coins2.isEmpty then none else some ⟨today, coins2⟩
    retried := pass1.2 }

/-- `is_stats_stale`: `none` models a `last_updated` of `null` or one that
fails to parse; otherwise the age in days is compared against the bound. -/
def is_stats_stale (age_days : Option ℤ) (max_age_days : ℤ) : Bool :=
  match age_days with
  | none => true
  | some age => age > max_age_days

/- Concrete inputs used by the witness theorems. -/

/-- Witness coin: drawdown thresholds only. -/
def cfgW : CoinConfig := ⟨"bitcoin", "Bitcoin", "BTC", [30, 40, 50], []⟩

/-- Witness coin: one threshold and one price target. -/
def cfgW2 : CoinConfig := ⟨"bitcoin", "Bitcoin", "BTC", [30], [40000]⟩

/-- Witness coin: price targets only. -/
def cfgW3 : CoinConfig := ⟨"bitcoin", "Bitcoin", "BTC", [], [80000, 70000]⟩

/-- Witness coin: a single zero price target. -/
def cfgW0 : CoinConfig := ⟨"zero", "Zero", "ZRO", [], [0]⟩

/-- Witness snapshot entry at a given current price. -/
def snapW (p : ℚ) : Crypto := ⟨"bitcoin", p, none, none, none, none, none⟩

/-- Witness ATH lookup oracle. -/
def lookW : String → Option ℚ := fun i => if i = "bitcoin" then some 69000 else none

/-- Witness market-context record (all optional fields absent). -/
def mdW : MarketData := buildMarketData (snapW 37950) none

/-- Witness drawdown alert for `cfgW2` at price 37950 with ATH 69000. -/
def aW : Alert := ⟨"Bitcoin (BTC)", 37950, AlertBody.ath 69000 45 30, mdW⟩

/-- Witness target alert for `cfgW2` at price 37950. -/
def bW : Alert :=
  ⟨"Bitcoin (BTC)", 37950,
   AlertBody.price 40000 (37950 - 40000) (round2 (priceDiffPercent (37950 - 40000) 40000)), mdW⟩

/-- Witness prior dedup key set. -/
def sentW : Finset AlertKey := {AlertKey.athKey "bitcoin" 30}

/-- Witness request trace: a timeout on the first attempt, then success. -/
def respTimeoutThenOk : ℕ → ReqOutcome :=
  fun n => if n = 0 then ReqOutcome.timeout else ReqOutcome.success 42

/-- Witness request trace: rate-limited on every attempt. -/
def respAll429 : ℕ → ReqOutcome := fun _ => ReqOutcome.httpErr 429

/-- Witness request trace: a permanent HTTP failure on the first attempt. -/
def resp500 : ℕ → ReqOutcome := fun _ => ReqOutcome.httpErr 500

/-- Witness fetch oracle for the 52-week refresher first pass. -/
def fetch1W : String → Option (ℚ × ℚ) :=
  fun i => if i = "ethereum" then none else some (100, 10)

/-- Witness fetch oracle for the 52-week refresher retry pass. -/
def fetch2W : String → Option (ℚ × ℚ) :=
  fun i => if i = "ethereum" then some (200, 20) else none

end Coinwatch

namespace Coinwatch

/- Helper lemmas about `listMax` / `listMin` (Python `max` / `min`). -/

theorem listMax_ne_none (x : ℚ) (xs : List ℚ) : listMax (x :: xs) ≠ none := by
  cases h : listMax xs <;> simp [listMax, h]

theorem listMax_eq_none_iff (l : List ℚ) : listMax l = none ↔ l = [] := by
  cases l with
  | nil => simp [listMax]
  | cons x xs =>
    constructor
    · intro h
      exact absurd h (listMax_ne_none x xs)
    · intro h
      exact absurd h (List.cons_ne_nil x xs)

theorem listMax_mem : ∀ {l : List ℚ} {m : ℚ}, listMax l = some m → m ∈ l := by
  intro l
  induction l with
  | nil => intro m h; simp [listMax] at h
  | cons x xs ih =>
    intro m h
    cases hx : listMax xs with
    | none =>
      simp [listMax, hx] at h
      simp [h]
    | some k =>
      simp [listMax, hx] at h
      subst h
      rcases max_choice x k with hc | hc
      · rw [hc]; exact List.mem_cons_self x xs
      · rw [hc]; exact List.mem_cons_of_mem x (ih hx)

theorem listMax_is_ub : ∀ {l : List ℚ} {m : ℚ}, listMax l = some m → ∀ x ∈ l, x ≤ m := by
  intro l
  induction l with
  | nil => intro m _ y hy; simp at hy
  | cons x xs ih =>
    intro m h y hy
    cases hx : listMax xs with
    | none =>
      have hnil : xs = [] := (listMax_eq_none_iff xs).mp hx
      subst hnil
      simp [listMax] at h
      simp at hy
      simp [hy, h]
    | some k =>
      simp [listMax, hx] at h
      subst h
      rcases List.mem_cons.mp hy with rfl | hy2
      · exact le_max_left y k
      · exact le_trans (ih hx y hy2) (le_max_right x k)

theorem listMin_ne_none (x : ℚ) (xs : List ℚ) : listMin (x :: xs) ≠ none := by
  cases h : listMin xs <;> simp [listMin, h]

theorem listMin_eq_none_iff (l : List ℚ) : listMin l = none ↔ l = [] := by
  cases l with
  | nil => simp [listMin]
  | cons x xs =>
    constructor
    · intro h
      exact absurd h (listMin_ne_none x xs)
    · intro h
      exact absurd h (List.cons_ne_nil x xs)

theorem listMin_mem : ∀ {l : List ℚ} {m : ℚ}, listMin l = some m → m ∈ l := by
  intro l
  induction l with
  | nil => intro m h; simp [listMin] at h
  | cons x xs ih =>
    intro m h
    cases hx : listMin xs with
    | none =>
      simp [listMin, hx] at h
      simp [h]
    | some k =>
      simp [listMin, hx] at h
      subst h
      rcases min_choice x k with hc | hc
      · rw [hc]; exact List.mem_cons_self x xs
      · rw [hc]; exact List.mem_cons_of_mem x (ih hx)

theorem listMin_is_lb : ∀ {l : List ℚ} {m : ℚ}, listMin l = some m → ∀ x ∈ l, m ≤ x := by
  intro l
  induction l with
  | nil => intro m _ y hy; simp at hy
  | cons x xs ih =>
    intro m h y hy
    cases hx : listMin xs with
    | none =>
      have hnil : xs = [] := (listMin_eq_none_iff xs).mp hx
      subst hnil
      simp [listMin] at h
      simp at hy
      simp [hy, h]
    | some k =>
      simp [listMin, hx] at h
      subst h
      rcases List.mem_cons.mp hy with rfl | hy2
      · exact min_le_left y k
      · exact le_trans (min_le_right x k) (ih hx y hy2)

/- Membership in the triggered lists. -/

theorem mem_triggeredThresholds {cfg : CoinConfig} {sent : Finset AlertKey}
    {drop t : ℚ} :
    t ∈ triggeredThresholds cfg sent drop ↔
      t ∈ cfg.ath_thresholds ∧ drop ≥ t ∧ AlertKey.athKey cfg.id t ∉ sent := by
  simp [triggeredThresholds, List.mem_filter]

theorem mem_triggeredTargets {cfg : CoinConfig} {sent : Finset AlertKey}
    {current p : ℚ} :
    p ∈ triggeredTargets cfg sent current ↔
      p ∈ cfg.price_alerts ∧ current ≤ p ∧ AlertKey.priceKey cfg.id p ∉ sent := by
  simp [triggeredTargets, List.mem_filter]

theorem triggeredThresholds_ne_nil_iff {cfg : CoinConfig} {sent : Finset AlertKey}
    {drop : ℚ} :
    triggeredThresholds cfg sent drop ≠ [] ↔
      ∃ t ∈ cfg.ath_thresholds, drop ≥ t ∧ AlertKey.athKey cfg.id t ∉ sent := by
  constructor
  · intro h
    rcases List.exists_mem_of_ne_nil _ h with ⟨t, ht⟩
    exact ⟨t, mem_triggeredThresholds.mp ht⟩
  · rintro ⟨t, h1, h2, h3⟩
    intro he
    have : t ∈ triggeredThresholds cfg sent drop := mem_triggeredThresholds.mpr ⟨h1, h2, h3⟩
    simp [he] at this

theorem triggeredTargets_ne_nil_iff {cfg : CoinConfig} {sent : Finset AlertKey}
    {current : ℚ} :
    triggeredTargets cfg sent current ≠ [] ↔
      ∃ p ∈ cfg.price_alerts, current ≤ p ∧ AlertKey.priceKey cfg.id p ∉ sent := by
  constructor
  · intro h
    rcases List.exists_mem_of_ne_nil _ h with ⟨p, hp⟩
    exact ⟨p, mem_triggeredTargets.mp hp⟩
  · rintro ⟨p, h1, h2, h3⟩
    intro he
    have : p ∈ triggeredTargets cfg sent current := mem_triggeredTargets.mpr ⟨h1, h2, h3⟩
    simp [he] at this

/- Characterizations of the two candidate builders. -/

theorem athCandidate_eq_none_iff {cfg : CoinConfig} {sent : Finset AlertKey}
    {cur ath : ℚ} {md : MarketData} :
    athCandidate cfg sent cur ath md = none ↔
      triggeredThresholds cfg sent (dropPercent ath cur) = [] := by
  rw [← listMax_eq_none_iff]
  cases h : listMax (triggeredThresholds cfg sent (dropPercent ath cur)) <;>
    simp [athCandidate, h]

theorem athCandidate_isSome_iff {cfg : CoinConfig} {sent : Finset AlertKey}
    {cur ath : ℚ} {md : MarketData} :
    (athCandidate cfg sent cur ath md).isSome ↔
      triggeredThresholds cfg sent (dropPercent ath cur) ≠ [] := by
  rw [Option.isSome_iff_ne_none]
  exact not_congr athCandidate_eq_none_iff

theorem athCandidate_eq_some {cfg : CoinConfig} {sent : Finset AlertKey}
    {cur ath : ℚ} {md : MarketData} {a : Alert} {s : ℚ}
    (h : athCandidate cfg sent cur ath md = some (a, s)) :
    ∃ best, listMax (triggeredThresholds cfg sent (dropPercent ath cur)) = some best ∧
      a = ⟨cfg.name ++ " (" ++ cfg.symbol ++ ")", cur,
           AlertBody.ath ath (round2 (dropPercent ath cur)) best, md⟩ ∧
      s = ath * (1 - best / 100) := by
  cases hm : listMax (triggeredThresholds cfg sent (dropPercent ath cur)) with
  | none => simp [athCandidate, hm] at h
  | some best =>
    refine ⟨best, rfl, ?_⟩
    simp [athCandidate, hm] at h
    exact ⟨h.1.symm, h.2.symm⟩

theorem priceCandidate_eq_none_iff {cfg : CoinConfig} {sent : Finset AlertKey}
    {cur : ℚ} {md : MarketData} :
    priceCandidate cfg sent cur md = none ↔
      triggeredTargets cfg sent cur = [] := by
  rw [← listMin_eq_none_iff]
  cases h : listMin (triggeredTargets cfg sent cur) <;>
    simp [priceCandidate, h]

theorem priceCandidate_isSome_iff {cfg : CoinConfig} {sent : Finset AlertKey}
    {cur : ℚ} {md : MarketData} :
    (priceCandidate cfg sent cur md).isSome ↔
      triggeredTargets cfg sent cur ≠ [] := by
  rw [Option.isSome_iff_ne_none]
  exact not_congr priceCandidate_eq_none_iff

theorem priceCandidate_eq_some {cfg : CoinConfig} {sent : Finset AlertKey}
    {cur : ℚ} {md : MarketData} {b : Alert} {s : ℚ}
    (h : priceCandidate cfg sent cur md = some (b, s)) :
    ∃ best, listMin (triggeredTargets cfg sent cur) = some best ∧
      b = ⟨cfg.name ++ " (" ++ cfg.symbol ++ ")", cur,
           AlertBody.price best (cur - best)
             (round2 (priceDiffPercent (cur - best) best)), md⟩ ∧
      s = best := by
  cases hm : listMin (triggeredTargets cfg sent cur) with
  | none => simp [priceCandidate, hm] at h
  | some best =>
    refine ⟨best, rfl, ?_⟩
    simp [priceCandidate, hm] at h
    exact ⟨h.1.symm, h.2.symm⟩

/- `pickBest` case lemmas. -/

theorem pickBest_eq_none_iff {o1 o2 : Option (Alert × ℚ)} :
    pickBest o1 o2 = none ↔ o1 = none ∧ o2 = none := by
  cases o1 <;> cases o2 <;> simp [pickBest]
  split <;> simp

theorem pickBest_some_some {a b : Alert × ℚ} :
    pickBest (some a) (some b) = some (if a.2 ≤ b.2 then a.1 else b.1) := by
  simp [pickBest]
  split <;> simp

theorem pickBest_eq_some {o1 o2 : Option (Alert × ℚ)} {x : Alert}
    (h : pickBest o1 o2 = some x) :
    (∃ s, o1 = some (x, s)) ∨ (∃ s, o2 = some (x, s)) := by
  cases o1 with
  | none =>
    cases o2 with
    | none => simp [pickBest] at h
    | some b =>
      simp [pickBest] at h
      exact Or.inr ⟨b.2, by rw [← h]⟩
  | some a =>
    cases o2 with
    | none =>
      simp [pickBest] at h
      exact Or.inl ⟨a.2, by rw [← h]⟩
    | some b =>
      rw [pickBest_some_some] at h
      by_cases hc : a.2 ≤ b.2
      · simp [hc] at h
        exact Or.inl ⟨a.2, by rw [← h]⟩
      · simp [hc] at h
        exact Or.inr ⟨b.2, by rw [← h]⟩

/- Unfolding lemmas for the two branches of the per-coin loop. -/

theorem athPart_of_config {cfg : CoinConfig} {sent : Finset AlertKey} {cur : ℚ}
    {md : MarketData} {lookup : String → Option ℚ} {ath : ℚ}
    (hth : cfg.ath_thresholds ≠ []) (hl : lookup cfg.id = some ath) :
    athPart sent cfg cur md lookup =
      (athCandidate cfg sent cur ath md,
       (triggeredThresholds cfg sent (dropPercent ath cur)).map (AlertKey.athKey cfg.id)) := by
  have h1 : cfg.ath_thresholds.isEmpty = false := by
    rw [← Bool.not_eq_true, List.isEmpty_iff]
    exact hth
  simp [athPart, h1, hl]

theorem pricePart_of_config {cfg : CoinConfig} {sent : Finset AlertKey} {cur : ℚ}
    {md : MarketData} (hpr : cfg.price_alerts ≠ []) :
    pricePart sent cfg cur md =
      (priceCandidate cfg sent cur md,
       (triggeredTargets cfg sent cur).map (AlertKey.priceKey cfg.id)) := by
  have h1 : cfg.price_alerts.isEmpty = false := by
    rw [← Bool.not_eq_true, List.isEmpty_iff]
    exact hpr
  simp [pricePart, h1]

theorem athPart_snd_not_sent {cfg : CoinConfig} {sent : Finset AlertKey} {cur : ℚ}
    {md : MarketData} {lookup : String → Option ℚ} {k : AlertKey}
    (h : k ∈ (athPart sent cfg cur md lookup).2) : k ∉ sent := by
  by_cases he : cfg.ath_thresholds.isEmpty
  · simp [athPart, he] at h
  · cases hl : lookup cfg.id with
    | none => simp [athPart, he, hl] at h
    | some ath =>
      simp [athPart, he, hl] at h
      rcases h with ⟨t, ht, rfl⟩
      exact (mem_triggeredThresholds.mp ht).2.2

theorem pricePart_snd_not_sent {cfg : CoinConfig} {sent : Finset AlertKey} {cur : ℚ}
    {md : MarketData} {k : AlertKey}
    (h : k ∈ (pricePart sent cfg cur md).2) : k ∉ sent := by
  by_cases he : cfg.price_alerts.isEmpty
  · simp [pricePart, he] at h
  · simp [pricePart, he] at h
    rcases h with ⟨p, hp, rfl⟩
    exact (mem_triggeredTargets.mp hp).2.2

/- Structural lemmas for `processCoin`. -/

theorem processCoin_alert_eq {cfg : CoinConfig} {sent : Finset AlertKey} {snap : Crypto}
    {stats : Option CoinStatEntry} {lookup : String → Option ℚ} :
    (processCoin sent cfg snap stats lookup).alert =
      pickBest (athPart sent cfg snap.current_price (buildMarketData snap stats) lookup).1
        (pricePart sent cfg snap.current_price (buildMarketData snap stats)).1 := by
  unfold processCoin
  cases hpb : pickBest (athPart sent cfg snap.current_price (buildMarketData snap stats) lookup).1
      (pricePart sent cfg snap.current_price (buildMarketData snap stats)).1 <;>
    simp [hpb]

theorem processCoin_athKeys_mem {cfg : CoinConfig} {sent : Finset AlertKey} {snap : Crypto}
    {stats : Option CoinStatEntry} {lookup : String → Option ℚ} {k : AlertKey}
    (h : k ∈ (processCoin sent cfg snap stats lookup).athKeys) :
    k ∈ (athPart sent cfg snap.current_price (buildMarketData snap stats) lookup).2 := by
  unfold processCoin at h
  cases hpb : pickBest (athPart sent cfg snap.current_price (buildMarketData snap stats) lookup).1
      (pricePart sent cfg snap.current_price (buildMarketData snap stats)).1 <;>
    simp [hpb] at h
  exact h

theorem processCoin_priceKeys_mem {cfg : CoinConfig} {sent : Finset AlertKey} {snap : Crypto}
    {stats : Option CoinStatEntry} {lookup : String → Option ℚ} {k : AlertKey}
    (h : k ∈ (processCoin sent cfg snap stats lookup).priceKeys) :
    k ∈ (pricePart sent cfg snap.current_price (buildMarketData snap stats)).2 := by
  unfold processCoin at h
  cases hpb : pickBest (athPart sent cfg snap.current_price (buildMarketData snap stats) lookup).1
      (pricePart sent cfg snap.current_price (buildMarketData snap stats)).1 <;>
    simp [hpb] at h
  exact h

theorem processCoin_athKeys_not_sent {cfg : CoinConfig} {sent : Finset AlertKey}
    {snap : Crypto} {stats : Option CoinStatEntry} {lookup : String → Option ℚ} {k : AlertKey}
    (h : k ∈ (processCoin sent cfg snap stats lookup).athKeys) : k ∉ sent :=
  athPart_snd_not_sent (processCoin_athKeys_mem h)

theorem processCoin_priceKeys_not_sent {cfg : CoinConfig} {sent : Finset AlertKey}
    {snap : Crypto} {stats : Option CoinStatEntry} {lookup : String → Option ℚ} {k : AlertKey}
    (h : k ∈ (processCoin sent cfg snap stats lookup).priceKeys) : k ∉ sent :=
  pricePart_snd_not_sent (processCoin_priceKeys_mem h)

theorem athPart_fst_some {cfg : CoinConfig} {sent : Finset AlertKey} {cur : ℚ}
    {md : MarketData} {lookup : String → Option ℚ} {a : Alert} {s : ℚ}
    (h : (athPart sent cfg cur md lookup).1 = some (a, s)) :
    ∃ ath, lookup cfg.id = some ath ∧ athCandidate cfg sent cur ath md = some (a, s) := by
  by_cases he : cfg.ath_thresholds.isEmpty
  · simp [athPart, he] at h
  · cases hl : lookup cfg.id with
    | none => simp [athPart, he, hl] at h
    | some ath =>
      simp [athPart, he, hl] at h
      exact ⟨ath, rfl, h⟩

theorem pricePart_fst_some {cfg : CoinConfig} {sent : Finset AlertKey} {cur : ℚ}
    {md : MarketData} {b : Alert} {s : ℚ}
    (h : (pricePart sent cfg cur md).1 = some (b, s)) :
    priceCandidate cfg sent cur md = some (b, s) := by
  by_cases he : cfg.price_alerts.isEmpty
  · simp [pricePart, he] at h
  · simp [pricePart, he] at h
    exact h

/-- An emitted alert never represents a condition whose key was already in
the prior sent mapping. -/
theorem processCoin_alert_key_not_sent {cfg : CoinConfig} {sent : Finset AlertKey}
    {snap : Crypto} {stats : Option CoinStatEntry} {lookup : String → Option ℚ} {a : Alert}
    (h : (processCoin sent cfg snap stats lookup).alert = some a) :
    alertCondKey cfg a ∉ sent := by
  rw [processCoin_alert_eq] at h
  rcases pickBest_eq_some h with ⟨s, h1⟩ | ⟨s, h2⟩
  · rcases athPart_fst_some h1 with ⟨ath, _, hc⟩
    rcases athCandidate_eq_some hc with ⟨best, hmax, rfl, _⟩
    have hb := listMax_mem hmax
    have hns := (mem_triggeredThresholds.mp hb).2.2
    simpa [alertCondKey] using hns
  · have hc := pricePart_fst_some h2
    rcases priceCandidate_eq_some hc with ⟨best, hmin, rfl, _⟩
    have hb := listMin_mem hmin
    have hns := (mem_triggeredTargets.mp hb).2.2
    simpa [alertCondKey] using hns

/-- The keys the per-coin loop marks for one coin, as the map over the
triggered thresholds (requires configured thresholds and a successful
lookup, the guards of the ATH branch). -/
theorem processCoin_athKeys_eq {cfg : CoinConfig} {sent : Finset AlertKey} {snap : Crypto}
    {stats : Option CoinStatEntry} {lookup : String → Option ℚ} {ath : ℚ}
    (hth : cfg.ath_thresholds ≠ []) (hl : lookup cfg.id = some ath) :
    (processCoin sent cfg snap stats lookup).athKeys =
      (triggeredThresholds cfg sent (dropPercent ath snap.current_price)).map
        (AlertKey.athKey cfg.id) := by
  simp only [processCoin, athPart_of_config hth hl]
  cases hpb : pickBest (athCandidate cfg sent snap.current_price ath (buildMarketData snap stats))
      (pricePart sent cfg snap.current_price (buildMarketData snap stats)).1 with
  | none =>
    have h2 := (pickBest_eq_none_iff.mp hpb).1
    rw [athCandidate_eq_none_iff] at h2
    simp [hpb, h2]
  | some best => simp [hpb]

/-- The price-target keys the per-coin loop marks for one coin
(unconditional: with no configured targets both sides are empty). -/
theorem processCoin_priceKeys_eq {cfg : CoinConfig} {sent : Finset AlertKey} {snap : Crypto}
    {stats : Option CoinStatEntry} {lookup : String → Option ℚ} :
    (processCoin sent cfg snap stats lookup).priceKeys =
      (triggeredTargets cfg sent snap.current_price).map (AlertKey.priceKey cfg.id) := by
  by_cases he : cfg.price_alerts.isEmpty
  · have hnil : cfg.price_alerts = [] := List.isEmpty_iff.mp he
    have htt : triggeredTargets cfg sent snap.current_price = [] := by
      simp [triggeredTargets, hnil]
    have hpp : pricePart sent cfg snap.current_price (buildMarketData snap stats) = (none, []) := by
      simp [pricePart, he]
    simp only [processCoin, hpp]
    cases hpb : pickBest (athPart sent cfg snap.current_price (buildMarketData snap stats) lookup).1
        (none : Option (Alert × ℚ)) <;>
      simp [hpb, htt]
  · have hpr : cfg.price_alerts ≠ [] := by
      intro hc
      rw [hc] at he
      simp at he
    simp only [processCoin, pricePart_of_config hpr]
    cases hpb : pickBest (athPart sent cfg snap.current_price (buildMarketData snap stats) lookup).1
        (priceCandidate cfg sent snap.current_price (buildMarketData snap stats)) with
    | none =>
      have h2 := (pickBest_eq_none_iff.mp hpb).2
      rw [priceCandidate_eq_none_iff] at h2
      simp [hpb, h2]
    | some best => simp [hpb]

/- Fold lemmas for the `check_alerts` cycle. -/

theorem checkStep_snd {coins : List CoinConfig} {stats : Stats52w} {sent : Finset AlertKey}
    {lookup : String → Option ℚ} (acc : List Alert × Finset AlertKey) (c : Crypto) :
    (checkStep coins stats sent lookup acc c).2 =
      acc.2 ∪ coinKeysOf coins stats sent lookup c := by
  unfold checkStep coinKeysOf
  cases coin_lookup coins c.id <;> simp

theorem foldl_checkStep_snd {coins : List CoinConfig} {stats : Stats52w}
    {sent : Finset AlertKey} {lookup : String → Option ℚ} :
    ∀ (l : List Crypto) (acc : List Alert × Finset AlertKey),
      (l.foldl (checkStep coins stats sent lookup) acc).2 =
        l.foldl (fun a c => a ∪ coinKeysOf coins stats sent lookup c) acc.2 := by
  intro l
  induction l with
  | nil => intro acc; rfl
  | cons c l ih =>
    intro acc
    rw [List.foldl_cons, List.foldl_cons, ih, checkStep_snd]

theorem foldl_union_start (f : Crypto → Finset AlertKey) :
    ∀ (l : List Crypto) (s : Finset AlertKey),
      l.foldl (fun a c => a ∪ f c) s = s ∪ l.foldl (fun a c => a ∪ f c) ∅ := by
  intro l
  induction l with
  | nil => intro s; simp
  | cons c l ih =>
    intro s
    rw [List.foldl_cons, List.foldl_cons, ih (s ∪ f c), ih (∅ ∪ f c)]
    simp [Finset.union_assoc]

theorem mem_foldl_union {f : Crypto → Finset AlertKey} {k : AlertKey} :
    ∀ {l : List Crypto}, k ∈ l.foldl (fun a c => a ∪ f c) ∅ → ∃ c ∈ l, k ∈ f c := by
  intro l
  induction l with
  | nil => intro h; simp at h
  | cons c l ih =>
    intro h
    rw [List.foldl_cons, foldl_union_start f l (∅ ∪ f c)] at h
    simp only [Finset.empty_union, Finset.mem_union] at h
    rcases h with h | h
    · exact ⟨c, List.mem_cons_self c l, h⟩
    · rcases ih h with ⟨c2, hc2, hk⟩
      exact ⟨c2, List.mem_cons_of_mem c hc2, hk⟩

theorem coinKeysOf_not_sent {coins : List CoinConfig} {stats : Stats52w}
    {sent : Finset AlertKey} {lookup : String → Option ℚ} {c : Crypto} {k : AlertKey}
    (h : k ∈ coinKeysOf coins stats sent lookup c) : k ∉ sent := by
  unfold coinKeysOf at h
  cases hcl : coin_lookup coins c.id with
  | none => simp [hcl] at h
  | some cfg =>
    simp [hcl, List.mem_toFinset] at h
    rcases h with h | h
    · exact processCoin_athKeys_not_sent h
    · exact processCoin_priceKeys_not_sent h

theorem cycleMarkedKeys_not_sent {coins : List CoinConfig} {stats : Stats52w}
    {sent : Finset AlertKey} {current : List Crypto} {lookup : String → Option ℚ}
    {k : AlertKey} (h : k ∈ cycleMarkedKeys coins stats sent current lookup) : k ∉ sent := by
  unfold cycleMarkedKeys at h
  rcases mem_foldl_union h with ⟨c, _, hk⟩
  exact coinKeysOf_not_sent hk

/-- The accumulated key set at the end of the cycle is the prior mapping
merged with the newly marked keys. -/
theorem check_alerts_newSent (coins : List CoinConfig) (stats : Stats52w) (sent : DedupState)
    (current : List Crypto) (lookup : String → Option ℚ) :
    (current.foldl (checkStep coins stats sent.sent_alerts lookup) ([], sent.sent_alerts)).2 =
      sent.sent_alerts ∪ cycleMarkedKeys coins stats sent.sent_alerts current lookup := by
  rw [foldl_checkStep_snd]
  exact foldl_union_start _ current sent.sent_alerts

/-- C1: for an asset with configured drawdown thresholds whose ATH lookup
succeeds, a drawdown candidate is produced iff some threshold `t` has
`dropPercent ≥ t` and its key absent from the prior state; the candidate
reports the maximum qualifying threshold, and exactly the keys of the
qualifying thresholds are marked sent for the cycle. -/
theorem C1_drawdown_candidate (cfg : CoinConfig) (sent : Finset AlertKey)
    (snap : Crypto) (stats : Option CoinStatEntry) (lookup : String → Option ℚ) (ath : ℚ)
    (hth : cfg.ath_thresholds ≠ []) (hl : lookup cfg.id = some ath) (hpos : 0 < ath) :
    ((athCandidate cfg sent snap.current_price ath (buildMarketData snap stats)).isSome ↔
      ∃ t ∈ cfg.ath_thresholds,
        dropPercent ath snap.current_price ≥ t ∧ AlertKey.athKey cfg.id t ∉ sent) ∧
    (∀ a s,
      athCandidate cfg sent snap.current_price ath (buildMarketData snap stats) = some (a, s) →
      ∃ best ∈ triggeredThresholds cfg sent (dropPercent ath snap.current_price),
        a.body = AlertBody.ath ath (round2 (dropPercent ath snap.current_price)) best ∧
        ∀ t ∈ triggeredThresholds cfg sent (dropPercent ath snap.current_price), t ≤ best) ∧
    (processCoin sent cfg snap stats lookup).athKeys =
      (triggeredThresholds cfg sent (dropPercent ath snap.current_price)).map
        (AlertKey.athKey cfg.id) := by
  refine ⟨?_, ?_, processCoin_athKeys_eq hth hl⟩
  · rw [athCandidate_isSome_iff]
    exact triggeredThresholds_ne_nil_iff
  · intro a s h
    rcases athCandidate_eq_some h with ⟨best, hmax, rfl, _⟩
    exact ⟨best, listMax_mem hmax, rfl, listMax_is_ub hmax⟩

/-- C1 witness: bitcoin at 48300 against ATH 69000 with thresholds
[30, 40, 50] and empty prior state. -/
theorem C1_drawdown_candidate_witness :
    cfgW.ath_thresholds ≠ [] ∧ lookW cfgW.id = some 69000 ∧ (0 : ℚ) < 69000 ∧
    ((athCandidate cfgW ∅ (snapW 48300).current_price 69000
        (buildMarketData (snapW 48300) none)).isSome ↔
      ∃ t ∈ cfgW.ath_thresholds,
        dropPercent 69000 (snapW 48300).current_price ≥ t ∧
          AlertKey.athKey cfgW.id t ∉ (∅ : Finset AlertKey)) ∧
    (processCoin ∅ cfgW (snapW 48300) none lookW).athKeys =
      (triggeredThresholds cfgW ∅ (dropPercent 69000 (snapW 48300).current_price)).map
        (AlertKey.athKey cfgW.id) := by
  have h := C1_drawdown_candidate cfgW ∅ (snapW 48300) none lookW 69000
    (by decide) (by decide) (by decide)
  exact ⟨by decide, by decide, by decide, h.1, h.2.2⟩

/-- C3: for an asset with configured price targets, a target candidate is
produced iff some target `p` has `current ≤ p` and its key absent from the
prior state; the candidate reports the minimum qualifying target, and
exactly the keys of the qualifying targets are marked sent for the cycle. -/
theorem C3_target_candidate (cfg : CoinConfig) (sent : Finset AlertKey)
    (snap : Crypto) (stats : Option CoinStatEntry) (lookup : String → Option ℚ)
    (hpr : cfg.price_alerts ≠ []) :
    ((priceCandidate cfg sent snap.current_price (buildMarketData snap stats)).isSome ↔
      ∃ p ∈ cfg.price_alerts,
        snap.current_price ≤ p ∧ AlertKey.priceKey cfg.id p ∉ sent) ∧
    (∀ b s,
      priceCandidate cfg sent snap.current_price (buildMarketData snap stats) = some (b, s) →
      ∃ best ∈ triggeredTargets cfg sent snap.current_price,
        b.body = AlertBody.price best (snap.current_price - best)
          (round2 (priceDiffPercent (snap.current_price - best) best)) ∧
        ∀ p ∈ triggeredTargets cfg sent snap.current_price, best ≤ p) ∧
    (processCoin sent cfg snap stats lookup).priceKeys =
      (triggeredTargets cfg sent snap.current_price).map (AlertKey.priceKey cfg.id) := by
  refine ⟨?_, ?_, processCoin_priceKeys_eq⟩
  · rw [priceCandidate_isSome_iff]
    exact triggeredTargets_ne_nil_iff
  · intro b s h
    rcases priceCandidate_eq_some h with ⟨best, hmin, rfl, _⟩
    exact ⟨best, listMin_mem hmin, rfl, listMin_is_lb hmin⟩

/-- C3 witness: targets [80000, 70000] at current price 69000 with empty
prior state: both targets qualify, the representative is 70000. -/
theorem C3_target_candidate_witness :
    cfgW3.price_alerts ≠ [] ∧
    ((priceCandidate cfgW3 ∅ (snapW 69000).current_price
        (buildMarketData (snapW 69000) none)).isSome ↔
      ∃ p ∈ cfgW3.price_alerts,
        (snapW 69000).current_price ≤ p ∧ AlertKey.priceKey cfgW3.id p ∉ (∅ : Finset AlertKey)) ∧
    (processCoin ∅ cfgW3 (snapW 69000) none lookW).priceKeys =
      (triggeredTargets cfgW3 ∅ (snapW 69000).current_price).map
        (AlertKey.priceKey cfgW3.id) := by
  have h := C3_target_candidate cfgW3 ∅ (snapW 69000) none lookW (by decide)
  exact ⟨by decide, h.1, h.2.2⟩

/-- C7: a zero target price short-circuits the percentage difference to
zero instead of dividing, and the produced candidate carries a zero
percentage field. -/
theorem C7_zero_target_short_circuit (cfg : CoinConfig) (sent : Finset AlertKey)
    (cur : ℚ) (md : MarketData)
    (h : listMin (triggeredTargets cfg sent cur) = some 0) :
    (∀ d : ℚ, priceDiffPercent d 0 = 0) ∧
    priceCandidate cfg sent cur md =
      some (⟨cfg.name ++ " (" ++ cfg.symbol ++ ")", cur,
             AlertBody.price 0 (cur - 0) 0, md⟩, 0) := by
  constructor
  · intro d
    simp [priceDiffPercent]
  · simp [priceCandidate, h, priceDiffPercent, round2]

/-- C7 witness: a configured target of 0 with current price 0. -/
theorem C7_zero_target_short_circuit_witness :
    listMin (triggeredTargets cfgW0 ∅ 0) = some 0 ∧
    priceDiffPercent (5 : ℚ) 0 = 0 ∧
    priceCandidate cfgW0 ∅ 0 mdW =
      some (⟨cfgW0.name ++ " (" ++ cfgW0.symbol ++ ")", 0,
             AlertBody.price 0 (0 - 0) 0, mdW⟩, 0) := by
  have h := C7_zero_target_short_circuit cfgW0 ∅ 0 mdW (by decide)
  exact ⟨by decide, h.1 5, h.2⟩

/-- C10: a missing or unparsable tracking file yields a fresh state with
the current date and an empty mapping, and a cycle run from it coincides with
a cycle run from an explicitly empty prior state. -/
theorem C10_fresh_state_on_missing_or_corrupt (reset : Bool) (today : String)
    (coins : List CoinConfig) (stats : Stats52w) (current : List Crypto)
    (lookup : String → Option ℚ) (dry : Bool) :
    load_sent_alerts reset today none = ⟨today, ∅⟩ ∧
    check_alerts coins stats (load_sent_alerts reset today none) current lookup dry =
      check_alerts coins stats ⟨today, ∅⟩ current lookup dry :=
  ⟨rfl, rfl⟩

/-- C5: a dry-run cycle computes the same alert list as a live cycle on
identical inputs, writes nothing to the dedup-state file, and delivers
nothing to the webhook. -/
theorem C5_dry_run_equivalence (coins : List CoinConfig) (stats : Stats52w)
    (sent : DedupState) (current : List Crypto) (lookup : String → Option ℚ) :
    (check_alerts coins stats sent current lookup true).alerts =
      (check_alerts coins stats sent current lookup false).alerts ∧
    (check_alerts coins stats sent current lookup true).write = none ∧
    ∀ alerts : List Alert, send_discord_alert alerts true = none := by
  refine ⟨rfl, ?_, ?_⟩
  · simp [check_alerts]
  · intro alerts
    by_cases h : alerts.isEmpty <;> simp [send_discord_alert, h]

/-- C2: when a drawdown candidate and a target candidate both exist for
one asset in one cycle, exactly one alert is emitted, chosen by lower
effective price (for the drawdown it is `ath * (1 - threshold/100)`,
carried as `sa`; for the target it is the target itself, carried as `sb`;
a tie keeps the drawdown candidate, the first in the potential list), and
the keys of the qualifying conditions of both candidates are all still
marked sent. -/
theorem C2_lower_effective_price_wins (cfg : CoinConfig) (sent : Finset AlertKey)
    (snap : Crypto) (stats : Option CoinStatEntry) (lookup : String → Option ℚ)
    (ath : ℚ) (a b : Alert) (sa sb : ℚ)
    (hl : lookup cfg.id = some ath) (hpos : 0 < ath)
    (ha : athCandidate cfg sent snap.current_price ath (buildMarketData snap stats) =
      some (a, sa))
    (hb : priceCandidate cfg sent snap.current_price (buildMarketData snap stats) =
      some (b, sb)) :
    (processCoin sent cfg snap stats lookup).alert = some (if sa ≤ sb then a else b) ∧
    (∃ best ∈ triggeredThresholds cfg sent (dropPercent ath snap.current_price),
      a.body = AlertBody.ath ath (round2 (dropPercent ath snap.current_price)) best ∧
      sa = ath * (1 - best / 100)) ∧
    (∃ tmin ∈ triggeredTargets cfg sent snap.current_price,
      b.body = AlertBody.price tmin (snap.current_price - tmin)
        (round2 (priceDiffPercent (snap.current_price - tmin) tmin)) ∧
      sb = tmin) ∧
    (processCoin sent cfg snap stats lookup).athKeys =
      (triggeredThresholds cfg sent (dropPercent ath snap.current_price)).map
        (AlertKey.athKey cfg.id) ∧
    (processCoin sent cfg snap stats lookup).priceKeys =
      (triggeredTargets cfg sent snap.current_price).map (AlertKey.priceKey cfg.id) := by
  have htrig : triggeredThresholds cfg sent (dropPercent ath snap.current_price) ≠ [] := by
    rcases athCandidate_eq_some ha with ⟨best, hmax, _, _⟩
    exact List.ne_nil_of_mem (listMax_mem hmax)
  have hth : cfg.ath_thresholds ≠ [] := by
    intro hc
    exact htrig (by simp [triggeredThresholds, hc])
  have htt : triggeredTargets cfg sent snap.current_price ≠ [] := by
    rcases priceCandidate_eq_some hb with ⟨tmin, hmin, _, _⟩
    exact List.ne_nil_of_mem (listMin_mem hmin)
  have hpr : cfg.price_alerts ≠ [] := by
    intro hc
    exact htt (by simp [triggeredTargets, hc])
  refine ⟨?_, ?_, ?_, processCoin_athKeys_eq hth hl, processCoin_priceKeys_eq⟩
  · rw [processCoin_alert_eq, (athPart_of_config hth hl :), (pricePart_of_config hpr :)]
    simp only [ha, hb]
    rw [pickBest_some_some]
  · rcases athCandidate_eq_some ha with ⟨best, hmax, rfl, hs⟩
    exact ⟨best, listMax_mem hmax, rfl, hs⟩
  · rcases priceCandidate_eq_some hb with ⟨tmin, hmin, rfl, hs⟩
    exact ⟨tmin, listMin_mem hmin, rfl, hs⟩

/-- C2 witness: one threshold (30) and one target (40000) at price 37950
against ATH 69000: drawdown effective price 48300, target effective price
40000, so the target alert wins and both keys are marked. -/
theorem C2_lower_effective_price_wins_witness :
    lookW cfgW2.id = some 69000 ∧ (0 : ℚ) < 69000 ∧
    (processCoin ∅ cfgW2 (snapW 37950) none lookW).alert = some bW ∧
    (processCoin ∅ cfgW2 (snapW 37950) none lookW).athKeys =
      [AlertKey.athKey "bitcoin" 30] ∧
    (processCoin ∅ cfgW2 (snapW 37950) none lookW).priceKeys =
      [AlertKey.priceKey "bitcoin" 40000] := by
  have h1 : triggeredThresholds cfgW2 ∅ (dropPercent 69000 (snapW 37950).current_price) =
      [30] := by
    norm_num [triggeredThresholds, cfgW2, dropPercent, snapW, List.filter]
  have h2 : triggeredTargets cfgW2 ∅ (snapW 37950).current_price = [40000] := by
    norm_num [triggeredTargets, cfgW2, snapW, List.filter]
  have ha : athCandidate cfgW2 ∅ (snapW 37950).current_price 69000
      (buildMarketData (snapW 37950) none) = some (aW, 48300) := by
    rw [athCandidate, h1]
    norm_num [listMax, aW, mdW, buildMarketData, snapW, round2, round_eq, dropPercent]
    rfl
  have hb : priceCandidate cfgW2 ∅ (snapW 37950).current_price
      (buildMarketData (snapW 37950) none) = some (bW, 40000) := by
    rw [priceCandidate, h2]
    norm_num [listMin, bW, mdW, buildMarketData, snapW]
    rfl
  have h := C2_lower_effective_price_wins cfgW2 ∅ (snapW 37950) none lookW 69000
    aW bW 48300 40000 (by decide) (by decide) ha hb
  refine ⟨by decide, by decide, ?_, ?_, ?_⟩
  · have h3 := h.1
    rw [if_neg (by norm_num : ¬(48300 : ℚ) ≤ 40000)] at h3
    exact h3
  · rw [h.2.2.2.1, h1]
    rfl
  · rw [h.2.2.2.2, h2]
    rfl

/-- C4: the dedup lifecycle never re-emits a sent key: at load time the
state resets to an empty mapping stamped today exactly when the stored
date differs and daily reset is enabled, and is returned unchanged
otherwise; any key present in the prior state is neither re-marked nor
represented by the emitted alert in any cycle; and the state written by
a cycle retains every prior key, so suppression carries to all subsequent
cycles. -/
theorem C4_dedup_never_reemitted (reset : Bool) (today : String) (d : DedupState)
    (cfg : CoinConfig) (sent : Finset AlertKey) (snap : Crypto)
    (stats : Option CoinStatEntry) (lookup : String → Option ℚ) (k : AlertKey)
    (hk : k ∈ sent) :
    (d.date ≠ today → reset = true → load_sent_alerts reset today (some d) = ⟨today, ∅⟩) ∧
    (d.date = today ∨ reset = false → load_sent_alerts reset today (some d) = d) ∧
    k ∉ (processCoin sent cfg snap stats lookup).athKeys ∧
    k ∉ (processCoin sent cfg snap stats lookup).priceKeys ∧
    (∀ a, (processCoin sent cfg snap stats lookup).alert = some a →
      alertCondKey cfg a ≠ k) ∧
    (∀ (coins : List CoinConfig) (stats2 : Stats52w) (st : DedupState)
        (current : List Crypto) (lookup2 : String → Option ℚ) (dry : Bool) (w : DedupState),
      k ∈ st.sent_alerts →
      (check_alerts coins stats2 st current lookup2 dry).write = some w →
      k ∈ w.sent_alerts) := by
  refine ⟨?_, ?_, ?_, ?_, ?_, ?_⟩
  · intro h1 h2
    simp [load_sent_alerts, h1, h2]
  · intro h
    rcases h with h | h
    · simp [load_sent_alerts, h]
    · simp [load_sent_alerts, h]
  · intro hmem
    exact processCoin_athKeys_not_sent hmem hk
  · intro hmem
    exact processCoin_priceKeys_not_sent hmem hk
  · intro a ha heq
    exact processCoin_alert_key_not_sent ha (heq ▸ hk)
  · intro coins stats2 st current lookup2 dry w hk2 hw
    simp only [check_alerts] at hw
    split at hw
    · rcases Option.some_injective _ hw with rfl
      rw [check_alerts_newSent]
      exact Finset.mem_union_left _ hk2
    · exact absurd hw (by simp)

/-- C4 witness: the key `bitcoin_ath_30` already sent suppresses the 30%
threshold, and a stale date with daily reset enabled yields a fresh
state. -/
theorem C4_dedup_never_reemitted_witness :
    AlertKey.athKey "bitcoin" 30 ∈ sentW ∧
    load_sent_alerts true "2025-01-02" (some ⟨"2025-01-01", sentW⟩) =
      ⟨"2025-01-02", ∅⟩ ∧
    AlertKey.athKey "bitcoin" 30 ∉ (processCoin sentW cfgW (snapW 48300) none lookW).athKeys := by
  have h := C4_dedup_never_reemitted true "2025-01-02" ⟨"2025-01-01", sentW⟩ cfgW sentW
    (snapW 48300) none lookW (AlertKey.athKey "bitcoin" 30) (by decide)
  exact ⟨by decide, h.1 (by decide) rfl, h.2.2.1⟩

/-- C8: the written dedup mapping is the prior mapping merged with the
keys newly marked during the cycle, and when no key was newly marked the mapping
is unchanged and the persistence write is skipped. -/
theorem C8_merge_and_skip (coins : List CoinConfig) (stats : Stats52w) (sent : DedupState)
    (current : List Crypto) (lookup : String → Option ℚ) :
    (check_alerts coins stats sent current lookup false).write =
      (if cycleMarkedKeys coins stats sent.sent_alerts current lookup = ∅ then none
       else some ⟨sent.date,
         sent.sent_alerts ∪ cycleMarkedKeys coins stats sent.sent_alerts current lookup⟩) := by
  have hres := check_alerts_newSent coins stats sent current lookup
  simp only [check_alerts, hres]
  by_cases hM : cycleMarkedKeys coins stats sent.sent_alerts current lookup = ∅
  · simp [hM]
  · rcases Finset.nonempty_iff_ne_empty.mpr hM with ⟨k, hk⟩
    have hkn : k ∉ sent.sent_alerts := cycleMarkedKeys_not_sent hk
    have hne : sent.sent_alerts ∪ cycleMarkedKeys coins stats sent.sent_alerts current lookup ≠
        sent.sent_alerts := by
      intro he
      have hku : k ∈ sent.sent_alerts ∪
          cycleMarkedKeys coins stats sent.sent_alerts current lookup :=
        Finset.mem_union_right _ hk
      rw [he] at hku
      exact hkn hku
    simp [hM, hne]

/-- C6 counterexample: the claim asserts that a timeout fails fast without
retrying, but on a trace with a timeout on the first attempt and success
on the second, `get_ath_price` retries after a 5-second back-off and
returns the success instead of failing with no sleeps. -/
theorem C6_counterexample_timeout_is_retried :
    get_ath_price respTimeoutThenOk 3 = (some 42, [5]) ∧
    get_ath_price respTimeoutThenOk 3 ≠ (none, []) := by
  constructor
  · rfl
  · decide

/-- A run whose first `rem` attempts starting at `attempt = a` are all
rate-limited sleeps `(a+i+1)*5` for each and exhausts the loop. -/
theorem ath_fetch_go_all_rate_limited (resp : ℕ → ReqOutcome) :
    ∀ (rem a : ℕ), (∀ i, i < rem → resp (a + i) = ReqOutcome.httpErr 429) →
      ath_fetch_go resp a rem =
        (none, (List.range rem).map fun i => (a + i + 1) * 5) := by
  intro rem
  induction rem with
  | zero => intro a _; simp [ath_fetch_go]
  | succ n ih =>
    intro a h
    have h0 : resp a = ReqOutcome.httpErr 429 := by
      simpa using h 0 (Nat.succ_pos n)
    have hrec := ih (a + 1) (fun i hi => by
      have := h (i + 1) (Nat.succ_lt_succ hi)
      simpa [Nat.add_assoc, Nat.add_comm 1 i] using this)
    simp only [ath_fetch_go, h0, if_pos rfl, hrec]
    rw [List.range_succ_eq_map]
    simp [List.map_map, Function.comp]
    intro i _
    omega

/-- C6 amended: a rate-limited response is retried up to the attempt bound
with linearly increasing back-off (attempt number × 5 s); a timeout is
likewise retried with the same back-off, except on the final attempt,
where it returns immediately; any other HTTP failure, a connection error,
or any other request error fails fast with no retry and no sleep,
degrading only the lookup of that asset. -/
theorem C6_retry_policy (resp : ℕ → ReqOutcome) (m : ℕ) :
    ((∀ i, i < m → resp i = ReqOutcome.httpErr 429) →
      get_ath_price resp m = (none, (List.range m).map fun i => (i + 1) * 5)) ∧
    (∀ a : ℚ, resp 0 = ReqOutcome.httpErr 429 → resp 1 = ReqOutcome.success a → 2 ≤ m →
      get_ath_price resp m = (some a, [5])) ∧
    (∀ a : ℚ, resp 0 = ReqOutcome.timeout → resp 1 = ReqOutcome.success a → 2 ≤ m →
      get_ath_price resp m = (some a, [5])) ∧
    (resp 0 = ReqOutcome.timeout → m = 1 → get_ath_price resp m = (none, [])) ∧
    (∀ c, resp 0 = ReqOutcome.httpErr c → c ≠ 429 → 0 < m →
      get_ath_price resp m = (none, [])) ∧
    (resp 0 = ReqOutcome.connErr → 0 < m → get_ath_price resp m = (none, [])) ∧
    (resp 0 = ReqOutcome.reqErr → 0 < m → get_ath_price resp m = (none, [])) := by
  refine ⟨?_, ?_, ?_, ?_, ?_, ?_, ?_⟩
  · intro h
    have := ath_fetch_go_all_rate_limited resp m 0 (fun i hi => by simpa using h i hi)
    simpa [get_ath_price] using this
  · intro a h0 h1 hm
    obtain ⟨n, rfl⟩ : ∃ n, m = n + 2 := ⟨m - 2, by omega⟩
    simp [get_ath_price, ath_fetch_go, h0, h1]
  · intro a h0 h1 hm
    obtain ⟨n, rfl⟩ : ∃ n, m = n + 2 := ⟨m - 2, by omega⟩
    simp [get_ath_price, ath_fetch_go, h0, h1]
  · intro h0 hm
    subst hm
    simp [get_ath_price, ath_fetch_go, h0]
  · intro c h0 hc hm
    obtain ⟨n, rfl⟩ : ∃ n, m = n + 1 := ⟨m - 1, by omega⟩
    simp [get_ath_price, ath_fetch_go, h0, hc]
  · intro h0 hm
    obtain ⟨n, rfl⟩ : ∃ n, m = n + 1 := ⟨m - 1, by omega⟩
    simp [get_ath_price, ath_fetch_go, h0]
  · intro h0 hm
    obtain ⟨n, rfl⟩ : ∃ n, m = n + 1 := ⟨m - 1, by omega⟩
    simp [get_ath_price, ath_fetch_go, h0]

/-- C6 amended witness: three concrete request traces exercising the
rate-limit bound with back-off [5, 10, 15], the timeout retry, and the
fail-fast on a non-429 HTTP error. -/
theorem C6_retry_policy_witness :
    get_ath_price respAll429 3 = (none, [5, 10, 15]) ∧
    get_ath_price respTimeoutThenOk 3 = (some 42, [5]) ∧
    get_ath_price resp500 3 = (none, []) := by
  refine ⟨?_, ?_, ?_⟩
  · have h := (C6_retry_policy respAll429 3).1 (fun i _ => rfl)
    exact h.trans (by decide)
  · exact (C6_retry_policy respTimeoutThenOk 3).2.2.1 42 rfl rfl (by decide)
  · exact (C6_retry_policy resp500 3).2.2.2.2.1 500 rfl (by decide) (by decide)

/-- The first pass of the refresher records exactly the successful fetches
(in order) and collects exactly the failed ids (in order). -/
theorem foldl_pass1Step (fetch1 : String → Option (ℚ × ℚ)) (today : String) :
    ∀ (l : List String) (cs : List (String × StatOut)) (fs : List String),
      l.foldl (pass1Step fetch1 today) (cs, fs) =
        (cs ++ l.filterMap (fun i => (fetch1 i).map fun hl => (i, statEntry today hl)),
         fs ++ l.filter (fun i => (fetch1 i).isNone)) := by
  intro l
  induction l with
  | nil => intro cs fs; simp
  | cons x l ih =>
    intro cs fs
    rw [List.foldl_cons]
    cases hx : fetch1 x with
    | none =>
      rw [show pass1Step fetch1 today (cs, fs) x = (cs, fs ++ [x]) by
        simp [pass1Step, hx]]
      rw [ih]
      simp [List.filterMap_cons, List.filter_cons, hx]
    | some hl =>
      rw [show pass1Step fetch1 today (cs, fs) x = (cs ++ [(x, statEntry today hl)], fs) by
        simp [pass1Step, hx]]
      rw [ih]
      simp [List.filterMap_cons, List.filter_cons, hx]

/-- The retry pass only ever appends entries, so everything recorded by
the first pass survives it. -/
theorem mem_foldl_retryStep (fetch2 : String → Option (ℚ × ℚ)) (today : String) :
    ∀ (l : List String) (acc : List (String × StatOut)) (x : String × StatOut),
      x ∈ acc → x ∈ l.foldl (retryStep fetch2 today) acc := by
  intro l
  induction l with
  | nil => intro acc x hx; exact hx
  | cons c l ih =>
    intro acc x hx
    rw [List.foldl_cons]
    apply ih
    unfold retryStep
    cases fetch2 c with
    | none => exact hx
    | some hl => exact List.mem_append_left _ hx

/-- C9: a partially failed refresh run still persists every asset fetched
successfully in the first pass (the document is saved whenever anything
was fetched), and the single follow-up retry pass is restricted to
exactly the ids that failed in the first pass. -/
theorem C9_partial_failure_persists (coin_ids : List String)
    (fetch1 fetch2 : String → Option (ℚ × ℚ)) (today : String)
    (id : String) (hi lo : ℚ)
    (hmem : id ∈ coin_ids) (hs : fetch1 id = some (hi, lo)) :
    (update_all_52w_stats coin_ids fetch1 fetch2 today).retried =
      coin_ids.filter (fun i => (fetch1 i).isNone) ∧
    ∃ data, (update_all_52w_stats coin_ids fetch1 fetch2 today).saved = some data ∧
      data.last_updated = today ∧
      (id, statEntry today (hi, lo)) ∈ data.coins := by
  have hp1 := foldl_pass1Step fetch1 today coin_ids [] []
  have hidmem : (id, statEntry today (hi, lo)) ∈
      coin_ids.filterMap (fun i => (fetch1 i).map fun hl => (i, statEntry today hl)) := by
    rw [List.mem_filterMap]
    exact ⟨id, hmem, by rw [hs]; rfl⟩
  have hcoins : (id, statEntry today (hi, lo)) ∈
      (coin_ids.foldl (pass1Step fetch1 today) ([], [])).2.foldl (retryStep fetch2 today)
        (coin_ids.foldl (pass1Step fetch1 today) ([], [])).1 := by
    apply mem_foldl_retryStep
    rw [hp1]
    simpa using hidmem
  have hne : ¬((coin_ids.foldl (pass1Step fetch1 today) ([], [])).2.foldl
      (retryStep fetch2 today) (coin_ids.foldl (pass1Step fetch1 today) ([], [])).1).isEmpty := by
    rw [List.isEmpty_iff]
    intro he
    rw [he] at hcoins
    simp at hcoins
  constructor
  · simp only [update_all_52w_stats, hp1, List.nil_append]
  · refine ⟨⟨today, (coin_ids.foldl (pass1Step fetch1 today) ([], [])).2.foldl
      (retryStep fetch2 today) (coin_ids.foldl (pass1Step fetch1 today) ([], [])).1⟩, ?_, rfl, hcoins⟩
    simp only [update_all_52w_stats]
    rw [if_neg hne]

/-- C9 witness: three assets where `ethereum` fails the first pass and
succeeds on retry: both first-pass successes are persisted and the retry
set is exactly `[ethereum]`. -/
theorem C9_partial_failure_persists_witness :
    "bitcoin" ∈ ["bitcoin", "ethereum", "solana"] ∧
    fetch1W "bitcoin" = some (100, 10) ∧
    (update_all_52w_stats ["bitcoin", "ethereum", "solana"] fetch1W fetch2W "2025-06-01").retried =
      (["bitcoin", "ethereum", "solana"].filter (fun i => (fetch1W i).isNone)) ∧
    ∃ data,
      (update_all_52w_stats ["bitcoin", "ethereum", "solana"] fetch1W fetch2W
        "2025-06-01").saved = some data ∧
      data.last_updated = "2025-06-01" ∧
      ("bitcoin", statEntry "2025-06-01" (100, 10)) ∈ data.coins := by
  have h := C9_partial_failure_persists ["bitcoin", "ethereum", "solana"] fetch1W fetch2W
    "2025-06-01" "bitcoin" 100 10 (by decide) (by decide)
  exact ⟨by decide, by decide, h.1, h.2⟩

end Coinwatch
